import Mathlib

/-!
Verification of the kafka queue-size-monitor core (offset tables, lag
reporter, broker-offset request batching, and the offset-commit codec)
against its natural-language specification.

The Go source keeps three nested map types:
  POffsetMap   : partition -> offset          (Go map[int32]int64)
  TPOffsetMap  : topic -> POffsetMap          (Go map[string]POffsetMap)
  GTPOffsetMap : group -> TPOffsetMap         (Go map[string]TPOffsetMap)
We embed Go maps as association lists (one entry per key for maps built by
the program's own operations), Go map reads with their zero-value default
(a missing key reads as 0 / nil map), and Go int64 offsets as Int.
Partitions are modelled as the raw unsigned 32-bit value (a Nat); the
int32 reinterpretation in the source is injective on that range, so table
behaviour is unchanged.
-/

set_option autoImplicit false

namespace KQSM

/-- partition -> offset, embedding Go `map[int32]int64`. -/
abbrev POffsetMap : Type := List (Nat × Int)

/-- topic -> partition -> offset, embedding Go `map[string]map[int32]int64`. -/
abbrev TPOffsetMap : Type := List (String × POffsetMap)

/-- group -> topic -> partition -> offset. -/
abbrev GTPOffsetMap : Type := List (String × TPOffsetMap)

/-- First-match lookup in a partition map. -/
def pLookup (m : POffsetMap) (p : Nat) : Option Int :=
  match m with
  | [] => none
  | (q, o) :: rest => if q = p then some o else pLookup rest p

/-- Go map read `m[p]` with int64 zero value for a missing key. -/
def pGet (m : POffsetMap) (p : Nat) : Int :=
  (pLookup m p).getD 0

/-- First-match lookup of a topic's partition map. -/
def tpLookup (m : TPOffsetMap) (t : String) : Option POffsetMap :=
  match m with
  | [] => none
  | (u, pm) :: rest => if u = t then some pm else tpLookup rest t

/-- Go nested read `m[t][p]`: a missing topic yields the nil map, whose
reads are all 0. -/
def tpGet (m : TPOffsetMap) (t : String) (p : Nat) : Int :=
  pGet ((tpLookup m t).getD []) p

/-- First-match lookup of a group's topic map. -/
def gtpLookup (m : GTPOffsetMap) (g : String) : Option TPOffsetMap :=
  match m with
  | [] => none
  | (h, tm) :: rest => if h = g then some tm else gtpLookup rest g

/-- Go nested read `m[g][t][p]` with zero-value defaults at every level. -/
def gtpGet (m : GTPOffsetMap) (g t : String) (p : Nat) : Int :=
  tpGet ((gtpLookup m g).getD []) t p

/-- `m[p] = o`: overwrite the first entry for `p`, or append a new one. -/
def pInsert (m : POffsetMap) (p : Nat) (o : Int) : POffsetMap :=
  match m with
  | [] => [(p, o)]
  | (q, v) :: rest => if q = p then (p, o) :: rest else (q, v) :: pInsert rest p o

/-- Update-or-create at a topic key: embeds the source's
`if _, ok := m[t]; !ok { m[t] = make(...) }` followed by a write into
`m[t]`, as one update of the (possibly empty) inner map. -/
def tpUpdate (m : TPOffsetMap) (t : String) (f : POffsetMap → POffsetMap) : TPOffsetMap :=
  match m with
  | [] => [(t, f [])]
  | (u, pm) :: rest => if u = t then (u, f pm) :: rest else (u, pm) :: tpUpdate rest t f

/-- Update-or-create at a group key, as in `tpUpdate`. -/
def gtpUpdate (m : GTPOffsetMap) (g : String) (f : TPOffsetMap → TPOffsetMap) : GTPOffsetMap :=
  match m with
  | [] => [(g, f [])]
  | (h, tm) :: rest => if h = g then (h, f tm) :: rest else (h, tm) :: gtpUpdate rest g f

/-- `storeConsumerOffset` (part_000 lines 239-251): create the group and
topic levels when absent, then `ConsumerOffsetStore[g][t][p] = o`. -/
def storeConsumerOffset (m : GTPOffsetMap) (g t : String) (p : Nat) (o : Int) : GTPOffsetMap :=
  gtpUpdate m g (fun tm => tpUpdate tm t (fun pm => pInsert pm p o))

/-- `storeBrokerOffset` (part_000 lines 254-262): create the topic level
when absent, then `BrokerOffsetStore[t][p] = o`. -/
def storeBrokerOffset (m : TPOffsetMap) (t : String) (p : Nat) (o : Int) : TPOffsetMap :=
  tpUpdate m t (fun pm => pInsert pm p o)

theorem pInsert_pInsert (m : POffsetMap) (p : Nat) (o1 o2 : Int) :
    pInsert (pInsert m p o1) p o2 = pInsert m p o2 := by
  induction m with
  | nil => simp [pInsert]
  | cons e rest ih =>
    obtain ⟨q, v⟩ := e
    by_cases h : q = p
    · subst h; simp [pInsert]
    · simp [pInsert, h, ih]

theorem tpUpdate_tpUpdate (m : TPOffsetMap) (t : String) (f1 f2 : POffsetMap → POffsetMap) :
    tpUpdate (tpUpdate m t f1) t f2 = tpUpdate m t (fun pm => f2 (f1 pm)) := by
  induction m with
  | nil => simp [tpUpdate]
  | cons e rest ih =>
    obtain ⟨u, pm⟩ := e
    by_cases h : u = t
    · subst h; simp [tpUpdate]
    · simp [tpUpdate, h, ih]

theorem gtpUpdate_gtpUpdate (m : GTPOffsetMap) (g : String) (f1 f2 : TPOffsetMap → TPOffsetMap) :
    gtpUpdate (gtpUpdate m g f1) g f2 = gtpUpdate m g (fun tm => f2 (f1 tm)) := by
  induction m with
  | nil => simp [gtpUpdate]
  | cons e rest ih =>
    obtain ⟨h0, tm⟩ := e
    by_cases h : h0 = g
    · subst h; simp [gtpUpdate]
    · simp [gtpUpdate, h, ih]

theorem pLookup_pInsert (m : POffsetMap) (p : Nat) (o : Int) :
    pLookup (pInsert m p o) p = some o := by
  induction m with
  | nil => simp [pInsert, pLookup]
  | cons e rest ih =>
    obtain ⟨q, v⟩ := e
    by_cases h : q = p
    · subst h; simp [pInsert, pLookup]
    · simp [pInsert, pLookup, h, ih]

theorem tpLookup_tpUpdate (m : TPOffsetMap) (t : String) (f : POffsetMap → POffsetMap) :
    tpLookup (tpUpdate m t f) t = some (f ((tpLookup m t).getD [])) := by
  induction m with
  | nil => simp [tpUpdate, tpLookup]
  | cons e rest ih =>
    obtain ⟨u, pm⟩ := e
    by_cases h : u = t
    · subst h; simp [tpUpdate, tpLookup]
    · simp [tpUpdate, tpLookup, h, ih]

theorem gtpLookup_gtpUpdate (m : GTPOffsetMap) (g : String) (f : TPOffsetMap → TPOffsetMap) :
    gtpLookup (gtpUpdate m g f) g = some (f ((gtpLookup m g).getD [])) := by
  induction m with
  | nil => simp [gtpUpdate, gtpLookup]
  | cons e rest ih =>
    obtain ⟨h0, tm⟩ := e
    by_cases h : h0 = g
    · subst h; simp [gtpUpdate, gtpLookup]
    · simp [gtpUpdate, gtpLookup, h, ih]

theorem gtpGet_storeConsumerOffset (m : GTPOffsetMap) (g t : String) (p : Nat) (o : Int) :
    gtpGet (storeConsumerOffset m g t p o) g t p = o := by
  unfold storeConsumerOffset
  simp [gtpGet, gtpLookup_gtpUpdate, tpGet, tpLookup_tpUpdate, pGet, pLookup_pInsert]

/-- **C7.** Upserting the same (group, topic, partition) with `o1` then
`o2` is the same table mutation as a single upsert of `o2` — the second
write overwrites in place, creating no second entry — and the subsequent
read of that key returns `o2`. -/
theorem consumer_upsert_overwrites (m : GTPOffsetMap) (g t : String) (p : Nat) (o1 o2 : Int) :
    storeConsumerOffset (storeConsumerOffset m g t p o1) g t p o2
        = storeConsumerOffset m g t p o2 ∧
    gtpGet (storeConsumerOffset (storeConsumerOffset m g t p o1) g t p o2) g t p = o2 := by
  constructor
  · unfold storeConsumerOffset
    rw [gtpUpdate_gtpUpdate]
    congr 1
    funext tm
    rw [tpUpdate_tpUpdate]
    congr 1
    funext pm
    rw [pInsert_pInsert]
  · exact gtpGet_storeConsumerOffset _ g t p o2

/-! ### Lag reporter (`computeLag`, part_000 lines 213-236)

`computeLag` walks every (group, topic, partition) of the consumer store,
computes `lag := brokerOffsetMap[topic][partition] -
consumerOffsetMap[group][topic][partition]` (Go zero-value reads for
missing keys), builds the stat name with
`fmt.Sprintf("%s.group.%s.%s.%d", prefix, group, topic, partition)`,
skips the gauge when `lag < 0` (logging a diagnostic), and otherwise
sends `(stat, lag)` to statsd. We record each loop iteration as a
`LagRecord` and keep the emitted and dropped gauge lists explicit. -/

/-- Stat name exactly as built by the source's
`fmt.Sprintf("%s.group.%s.%s.%d", prefix, group, topic, partition)`. -/
def statString (pfx g t : String) (p : Nat) : String :=
  pfx ++ ".group." ++ g ++ "." ++ t ++ "." ++ toString p

/-- One iteration of the `computeLag` triple loop. -/
structure LagRecord where
  group : String
  topic : String
  partition : Nat
  stat : String
  lag : Int
deriving DecidableEq

/-- Innermost loop of `computeLag`: `for partition := range tbody`. -/
def lagRecordsP (pfx : String) (bm : TPOffsetMap) (cm : GTPOffsetMap)
    (g t : String) (pb : POffsetMap) : List LagRecord :=
  match pb with
  | [] => []
  | (p, _) :: rest =>
      { group := g, topic := t, partition := p,
        stat := statString pfx g t p,
        lag := tpGet bm t p - gtpGet cm g t p }
        :: lagRecordsP pfx bm cm g t rest

/-- Middle loop of `computeLag`: `for topic, tbody := range gbody`. -/
def lagRecordsT (pfx : String) (bm : TPOffsetMap) (cm : GTPOffsetMap)
    (g : String) (tb : TPOffsetMap) : List LagRecord :=
  match tb with
  | [] => []
  | (t, pb) :: rest =>
      lagRecordsP pfx bm cm g t pb ++ lagRecordsT pfx bm cm g rest

/-- Outer loop of `computeLag`: `for group, gbody := range consumerOffsetMap`. -/
def lagRecordsG (pfx : String) (bm : TPOffsetMap) (cm : GTPOffsetMap)
    (rem : GTPOffsetMap) : List LagRecord :=
  match rem with
  | [] => []
  | (g, tb) :: rest =>
      lagRecordsT pfx bm cm g tb ++ lagRecordsG pfx bm cm rest

/-- All (group, topic, partition) iterations of one `computeLag` call. -/
def lagRecords (pfx : String) (bm : TPOffsetMap) (cm : GTPOffsetMap) : List LagRecord :=
  lagRecordsG pfx bm cm cm

/-- Iterations whose gauge reaches statsd: the `lag < 0` branch of
`computeLag` does `continue`, every other iteration sends `(stat, lag)`. -/
def emittedGauges (pfx : String) (bm : TPOffsetMap) (cm : GTPOffsetMap) : List (String × Int) :=
  ((lagRecords pfx bm cm).filter (fun r => ! decide (r.lag < 0))).map (fun r => (r.stat, r.lag))

/-- Iterations dropped (logged only) by the `lag < 0` branch. -/
def droppedRecords (pfx : String) (bm : TPOffsetMap) (cm : GTPOffsetMap) : List LagRecord :=
  (lagRecords pfx bm cm).filter (fun r => decide (r.lag < 0))

/-- Boolean presence of a (topic, partition) entry in the broker table. -/
def tpHas (m : TPOffsetMap) (t : String) (p : Nat) : Bool :=
  (pLookup ((tpLookup m t).getD []) p).isSome

theorem tpGet_of_not_tpHas (m : TPOffsetMap) (t : String) (p : Nat)
    (h : tpHas m t p = false) : tpGet m t p = 0 := by
  unfold tpHas at h
  unfold tpGet pGet
  cases hpl : pLookup ((tpLookup m t).getD []) p with
  | none => rfl
  | some o => rw [hpl] at h; simp at h

theorem mem_lagRecordsP (pfx : String) (bm : TPOffsetMap) (cm : GTPOffsetMap)
    (g t : String) (pb : POffsetMap) (p : Nat) (o : Int) (hp : (p, o) ∈ pb) :
    ({ group := g, topic := t, partition := p, stat := statString pfx g t p,
       lag := tpGet bm t p - gtpGet cm g t p } : LagRecord)
      ∈ lagRecordsP pfx bm cm g t pb := by
  induction pb with
  | nil => cases hp
  | cons e rest ih =>
    obtain ⟨q, v⟩ := e
    rcases List.mem_cons.mp hp with he | hm
    · rw [Prod.mk.injEq] at he
      simp [lagRecordsP, he.1]
    · simp [lagRecordsP]
      right
      exact ih hm

theorem mem_lagRecordsT (pfx : String) (bm : TPOffsetMap) (cm : GTPOffsetMap)
    (g : String) (tb : TPOffsetMap) (t : String) (pb : POffsetMap)
    (ht : (t, pb) ∈ tb) (p : Nat) (o : Int) (hp : (p, o) ∈ pb) :
    ({ group := g, topic := t, partition := p, stat := statString pfx g t p,
       lag := tpGet bm t p - gtpGet cm g t p } : LagRecord)
      ∈ lagRecordsT pfx bm cm g tb := by
  induction tb with
  | nil => cases ht
  | cons e rest ih =>
    obtain ⟨u, qb⟩ := e
    rcases List.mem_cons.mp ht with he | hm
    · rw [Prod.mk.injEq] at he
      obtain ⟨h1, h2⟩ := he
      subst h1; subst h2
      exact List.mem_append_left _ (mem_lagRecordsP pfx bm cm g t pb p o hp)
    · exact List.mem_append_right _ (ih hm)

theorem mem_lagRecordsG (pfx : String) (bm : TPOffsetMap) (cm : GTPOffsetMap)
    (rem : GTPOffsetMap) (g : String) (tb : TPOffsetMap) (hg : (g, tb) ∈ rem)
    (t : String) (pb : POffsetMap) (ht : (t, pb) ∈ tb) (p : Nat) (o : Int)
    (hp : (p, o) ∈ pb) :
    ({ group := g, topic := t, partition := p, stat := statString pfx g t p,
       lag := tpGet bm t p - gtpGet cm g t p } : LagRecord)
      ∈ lagRecordsG pfx bm cm rem := by
  induction rem with
  | nil => cases hg
  | cons e rest ih =>
    obtain ⟨h0, ub⟩ := e
    rcases List.mem_cons.mp hg with he | hm
    · rw [Prod.mk.injEq] at he
      obtain ⟨h1, h2⟩ := he
      subst h1; subst h2
      exact List.mem_append_left _ (mem_lagRecordsT pfx bm cm g tb t pb ht p o hp)
    · exact List.mem_append_right _ (ih hm)

/-- **C4.** For every (group, topic, partition) entry of the Consumer
Offset Table, `computeLag` produces the iteration whose lag is exactly
`brokerOffset(topic, partition) - consumerOffset(group, topic, partition)`
(reads with Go zero-value defaulting), and a (topic, partition) with no
entry in the Broker Offset Table contributes 0 to that arithmetic. -/
theorem computeLag_formula (pfx : String) (bm : TPOffsetMap) (cm : GTPOffsetMap)
    (g : String) (tb : TPOffsetMap) (t : String) (pb : POffsetMap)
    (p : Nat) (o : Int)
    (hg : (g, tb) ∈ cm) (ht : (t, pb) ∈ tb) (hp : (p, o) ∈ pb) :
    ({ group := g, topic := t, partition := p, stat := statString pfx g t p,
       lag := tpGet bm t p - gtpGet cm g t p } : LagRecord)
      ∈ lagRecords pfx bm cm ∧
    (tpHas bm t p = false → tpGet bm t p = 0) :=
  ⟨mem_lagRecordsG pfx bm cm cm g tb hg t pb ht p o hp,
   tpGet_of_not_tpHas bm t p⟩

/-- Witness for C4 at the spec's example: broker offset 110, consumer
offset 100 for (group g, topic t, partition 0) yield the lag-10 record. -/
theorem computeLag_formula_witness :
    ({ group := "g", topic := "t", partition := 0, stat := statString "kqm" "g" "t" 0,
       lag := tpGet [("t", [(0, 110)])] "t" 0
                - gtpGet [("g", [("t", [(0, 100)])])] "g" "t" 0 } : LagRecord)
      ∈ lagRecords "kqm" [("t", [(0, 110)])] [("g", [("t", [(0, 100)])])] ∧
    tpGet [("t", [(0, 110)])] "t" 0
        - gtpGet [("g", [("t", [(0, 100)])])] "g" "t" 0 = 10 := by
  refine ⟨(computeLag_formula "kqm" [("t", [(0, 110)])] [("g", [("t", [(0, 100)])])]
    "g" [("t", [(0, 100)])] "t" [(0, 100)] 0 100 ?_ ?_ ?_).1, ?_⟩
  · simp
  · simp
  · simp
  · decide

/-- **C5.** An iteration with negative lag never reaches the metrics sink
(its (stat, lag) pair is absent from the emitted list and the record lands
in the logged-and-dropped list); an iteration with non-negative lag is
emitted. -/
theorem negative_lag_not_emitted (pfx : String) (bm : TPOffsetMap) (cm : GTPOffsetMap)
    (r : LagRecord) (hr : r ∈ lagRecords pfx bm cm) :
    (r.lag < 0 →
      (r.stat, r.lag) ∉ emittedGauges pfx bm cm ∧ r ∈ droppedRecords pfx bm cm) ∧
    (0 ≤ r.lag → (r.stat, r.lag) ∈ emittedGauges pfx bm cm) := by
  constructor
  · intro hneg
    constructor
    · intro hmem
      unfold emittedGauges at hmem
      obtain ⟨r', hr', heq⟩ := List.mem_map.mp hmem
      have hfil := (List.mem_filter.mp hr').2
      have h2 : r'.lag = r.lag := congrArg Prod.snd heq
      simp only [Bool.not_eq_true', decide_eq_false_iff_not] at hfil
      omega
    · refine List.mem_filter.mpr ⟨hr, ?_⟩
      simp only [decide_eq_true_eq]
      exact hneg
  · intro hpos
    unfold emittedGauges
    refine List.mem_map.mpr ⟨r, List.mem_filter.mpr ⟨hr, ?_⟩, rfl⟩
    simp only [Bool.not_eq_true', decide_eq_false_iff_not]
    omega

/-- Witness for C5 at the spec's example: broker offset 90 and consumer
offset 100 give lag -10, whose gauge is not emitted. -/
theorem negative_lag_not_emitted_witness :
    (statString "kqm" "g" "t" 0, (-10 : Int))
      ∉ emittedGauges "kqm" [("t", [(0, 90)])] [("g", [("t", [(0, 100)])])] :=
  ((negative_lag_not_emitted "kqm" [("t", [(0, 90)])] [("g", [("t", [(0, 100)])])]
      { group := "g", topic := "t", partition := 0,
        stat := statString "kqm" "g" "t" 0, lag := -10 }
      (by decide)).1 (by decide)).1

theorem lagRecordsP_stat (pfx : String) (bm : TPOffsetMap) (cm : GTPOffsetMap)
    (g t : String) (pb : POffsetMap) (r : LagRecord)
    (hr : r ∈ lagRecordsP pfx bm cm g t pb) :
    r.stat = statString pfx r.group r.topic r.partition := by
  induction pb with
  | nil => cases hr
  | cons e rest ih =>
    obtain ⟨p, o⟩ := e
    simp only [lagRecordsP] at hr
    rcases List.mem_cons.mp hr with he | hm
    · subst he; rfl
    · exact ih hm

theorem lagRecordsT_stat (pfx : String) (bm : TPOffsetMap) (cm : GTPOffsetMap)
    (g : String) (tb : TPOffsetMap) (r : LagRecord)
    (hr : r ∈ lagRecordsT pfx bm cm g tb) :
    r.stat = statString pfx r.group r.topic r.partition := by
  induction tb with
  | nil => cases hr
  | cons e rest ih =>
    obtain ⟨t, pb⟩ := e
    simp only [lagRecordsT] at hr
    rcases List.mem_append.mp hr with h1 | h2
    · exact lagRecordsP_stat pfx bm cm g t pb r h1
    · exact ih h2

theorem lagRecordsG_stat (pfx : String) (bm : TPOffsetMap) (cm : GTPOffsetMap)
    (rem : GTPOffsetMap) (r : LagRecord) (hr : r ∈ lagRecordsG pfx bm cm rem) :
    r.stat = statString pfx r.group r.topic r.partition := by
  induction rem with
  | nil => cases hr
  | cons e rest ih =>
    obtain ⟨g, tb⟩ := e
    simp only [lagRecordsG] at hr
    rcases List.mem_append.mp hr with h1 | h2
    · exact lagRecordsT_stat pfx bm cm g tb r h1
    · exact ih h2

theorem statString_intercalate (pfx g t : String) (p : Nat) :
    statString pfx g t p = String.intercalate "." [pfx, "group", g, t, toString p] := by
  unfold statString
  simp [String.intercalate, String.intercalate.go]
  ext
  simp [String.data_append]

/-- **C9.** Every emitted gauge's stat name is the configured prefix, the
literal segment "group", the group, the topic and the partition number,
joined by "." — byte for byte. -/
theorem emitted_stat_format (pfx : String) (bm : TPOffsetMap) (cm : GTPOffsetMap)
    (q : String × Int) (hq : q ∈ emittedGauges pfx bm cm) :
    ∃ r, r ∈ lagRecords pfx bm cm ∧ q.1 = r.stat ∧
      r.stat = String.intercalate "." [pfx, "group", r.group, r.topic, toString r.partition] := by
  unfold emittedGauges at hq
  obtain ⟨r, hr', heq⟩ := List.mem_map.mp hq
  have hrm : r ∈ lagRecords pfx bm cm := (List.mem_filter.mp hr').1
  refine ⟨r, hrm, (congrArg Prod.fst heq).symm, ?_⟩
  rw [lagRecordsG_stat pfx bm cm cm r hrm]
  exact statString_intercalate pfx r.group r.topic r.partition

/-- Witness for C9 on the lag-10 example gauge. -/
theorem emitted_stat_format_witness :
    ∃ r, r ∈ lagRecords "kqm" [("t", [(0, 110)])] [("g", [("t", [(0, 100)])])] ∧
      (statString "kqm" "g" "t" 0, (10 : Int)).1 = r.stat ∧
      r.stat = String.intercalate "." ["kqm", "group", r.group, r.topic, toString r.partition] :=
  emitted_stat_format "kqm" [("t", [(0, 110)])] [("g", [("t", [(0, 100)])])]
    (statString "kqm" "g" "t" 0, 10) (by decide)

/-! ### Offset-commit codec (`formatConsumerOffsetMessage`, part_000 lines 278-362)

The decoder reads sequentially from a `bytes.Buffer`; we embed a buffer
as a `List Nat` of byte values and each read as a step that either
returns the parsed value together with the unread remainder, or fails.
Every read is bounds-checked (`binary.Read` and the source's own
`n != int(strlen)` underflow check), so the embedding is total: no read
ever inspects bytes beyond the buffer and no input can panic. -/

/-- A sequential reader over a byte buffer. -/
abbrev ByteReader (α : Type) : Type := List Nat → Option (α × List Nat)

/-- Reader returning `a` and consuming nothing. -/
def rpure {α : Type} (a : α) : ByteReader α := fun b => some (a, b)

/-- Reader that always fails. -/
def rfail {α : Type} : ByteReader α := fun _ => none

/-- Sequence two reads; a failure of the first aborts the second. -/
def rbind {α β : Type} (r1 : ByteReader α) (r2 : α → ByteReader β) : ByteReader β := fun b =>
  match r1 b with
  | none => none
  | some (v, rest) => r2 v rest

/-- Read exactly `n` bytes or fail. -/
def readN (n : Nat) : ByteReader (List Nat) := fun b =>
  if n ≤ b.length then some (b.take n, b.drop n) else none

/-- Big-endian value of a byte sequence. -/
def beVal (bs : List Nat) : Nat := bs.foldl (fun a b => 256 * a + b) 0

/-- `binary.Read(buf, binary.BigEndian, &x)` for a `w`-byte unsigned
field. -/
def readBE (w : Nat) : ByteReader Nat := rbind (readN w) (fun bs => rpure (beVal bs))

/-- uint16 field. -/
def readU16 : ByteReader Nat := readBE 2

/-- uint32 field. -/
def readU32 : ByteReader Nat := readBE 4

/-- uint64 field. -/
def readU64 : ByteReader Nat := readBE 8

/-- `readString` (part_000 lines 281-293): 2-byte big-endian length
prefix, then that many string bytes. -/
def readStr : ByteReader (List Nat) := rbind readU16 readN

/-- Key fields after the version: group, topic, uint32 partition. -/
def decodeKeyBody : ByteReader (List Nat × List Nat × Nat) :=
  rbind readStr (fun g => rbind readStr (fun t => rbind readU32 (fun p => rpure (g, t, p))))

/-- Key decoding (part_000 lines 304-329). A buffer too short for the
version field leaves `keyver` at its zero value after the failed
`binary.Read` (which consumes the whole remainder), so control falls
into the version-0 branch with an exhausted buffer and the group read
fails; version 2 and every other version are rejected. -/
def decodeKey : ByteReader (List Nat × List Nat × Nat) := fun key =>
  match readU16 key with
  | some (ver, rest) => if ver = 0 ∨ ver = 1 then decodeKeyBody rest else none
  | none => decodeKeyBody []

/-- Value fields after the version: int64 offset, length-prefixed
metadata (discarded), int64 commit timestamp. -/
def decodeValueBody : ByteReader (Nat × Nat) :=
  rbind readU64 (fun off => rbind readStr (fun _ => rbind readU64 (fun ts => rpure (off, ts))))

/-- Value decoding (part_000 lines 331-351): a failed or non-0/1 version
read rejects the record, then offset, metadata, commitTimestamp. -/
def decodeValue : ByteReader (Nat × Nat) :=
  rbind readU16 (fun ver => if ver = 0 ∨ ver = 1 then decodeValueBody else rfail)

/-- Go `string(bytes)` at the store boundary. -/
def bytesToStr (bs : List Nat) : String := String.mk (bs.map Char.ofNat)

/-- Reinterpret the uint64 read from the wire as Go int64. -/
def toInt64 (n : Nat) : Int := if n < 2 ^ 63 then (n : Int) else (n : Int) - 2 ^ 64

/-- `formatConsumerOffsetMessage` (part_000 lines 278-362) on one raw
record: decode the key, then the value, and only when both succeed upsert
(group, topic, partition, offset) into the consumer store. -/
def processMessage (store : GTPOffsetMap) (key value : List Nat) : GTPOffsetMap :=
  match decodeKey key with
  | none => store
  | some ((g, t, p), _) =>
      match decodeValue value with
      | none => store
      | some ((off, _ts), _) =>
          storeConsumerOffset store (bytesToStr g) (bytesToStr t) p (toInt64 off)

/-- Big-endian bytes of a 16-bit value. -/
def u16bytes (n : Nat) : List Nat := [n / 256 % 256, n % 256]

/-- Big-endian bytes of a 32-bit value. -/
def u32bytes (n : Nat) : List Nat :=
  [n / 16777216 % 256, n / 65536 % 256, n / 256 % 256, n % 256]

/-- Big-endian bytes of a 64-bit value. -/
def u64bytes (n : Nat) : List Nat :=
  [n / 72057594037927936 % 256, n / 281474976710656 % 256, n / 1099511627776 % 256,
   n / 4294967296 % 256, n / 16777216 % 256, n / 65536 % 256, n / 256 % 256, n % 256]

/-- Well-formed commit key per the spec's key layout (4.1). -/
def encodeKey (ver : Nat) (g t : List Nat) (p : Nat) : List Nat :=
  u16bytes ver ++ (u16bytes g.length ++ (g ++ (u16bytes t.length ++ (t ++ u32bytes p))))

/-- Well-formed commit value per the spec's value layout (4.1). -/
def encodeValue (ver off : Nat) (meta : List Nat) (ts : Nat) : List Nat :=
  u16bytes ver ++ (u64bytes off ++ (u16bytes meta.length ++ (meta ++ u64bytes ts)))

theorem rbind_eq {α β : Type} (r1 : ByteReader α) (r2 : α → ByteReader β)
    (b : List Nat) (v : α) (rest : List Nat) (h : r1 b = some (v, rest)) :
    rbind r1 r2 b = r2 v rest := by
  unfold rbind
  rw [h]

theorem rbind_inv {α β : Type} (r1 : ByteReader α) (r2 : α → ByteReader β)
    (b : List Nat) (v : β) (l : List Nat) (h : rbind r1 r2 b = some (v, l)) :
    ∃ v1 l1, r1 b = some (v1, l1) ∧ r2 v1 l1 = some (v, l) := by
  unfold rbind at h
  cases hr : r1 b with
  | none => rw [hr] at h; cases h
  | some vr =>
      obtain ⟨v1, l1⟩ := vr
      rw [hr] at h
      exact ⟨v1, l1, rfl, h⟩

theorem readN_inv (n : Nat) (b : List Nat) (v l : List Nat)
    (h : readN n b = some (v, l)) :
    n ≤ b.length ∧ v = b.take n ∧ l = b.drop n := by
  unfold readN at h
  split at h
  · injection h with h1
    rw [Prod.mk.injEq] at h1
    exact ⟨by assumption, h1.1.symm, h1.2.symm⟩
  · cases h

theorem readN_exact (l rest : List Nat) : readN l.length (l ++ rest) = some (l, rest) := by
  unfold readN
  rw [if_pos (by simp), List.take_left, List.drop_left]

theorem readN_all (l : List Nat) : readN l.length l = some (l, []) := by
  unfold readN
  rw [if_pos (le_refl _), List.take_length, List.drop_length]

theorem readBE_encode (bs rest : List Nat) (w : Nat) (hw : bs.length = w) :
    readBE w (bs ++ rest) = some (beVal bs, rest) := by
  subst hw
  unfold readBE
  rw [rbind_eq _ _ _ _ _ (readN_exact bs rest)]
  rfl

theorem readBE_all (bs : List Nat) (w : Nat) (hw : bs.length = w) :
    readBE w bs = some (beVal bs, []) := by
  subst hw
  unfold readBE
  rw [rbind_eq _ _ _ _ _ (readN_all bs)]
  rfl

theorem readBE_inv (w : Nat) (b : List Nat) (v : Nat) (l : List Nat)
    (h : readBE w b = some (v, l)) :
    w ≤ b.length ∧ v = beVal (b.take w) ∧ l = b.drop w := by
  unfold readBE at h
  obtain ⟨v1, l1, h1, h2⟩ := rbind_inv _ _ _ _ _ h
  obtain ⟨hn, hv, hl⟩ := readN_inv _ _ _ _ h1
  unfold rpure at h2
  injection h2 with h3
  rw [Prod.mk.injEq] at h3
  exact ⟨hn, by rw [← h3.1, hv], by rw [← h3.2, hl]⟩

theorem beVal_u16bytes (n : Nat) (hn : n < 65536) : beVal (u16bytes n) = n := by
  unfold beVal u16bytes
  simp [List.foldl]
  omega

theorem beVal_u32bytes (n : Nat) (hn : n < 4294967296) : beVal (u32bytes n) = n := by
  unfold beVal u32bytes
  simp [List.foldl]
  omega

theorem beVal_u64bytes (n : Nat) (hn : n < 18446744073709551616) :
    beVal (u64bytes n) = n := by
  unfold beVal u64bytes
  simp [List.foldl]
  omega

theorem readU16_encode (n : Nat) (hn : n < 65536) (rest : List Nat) :
    readU16 (u16bytes n ++ rest) = some (n, rest) := by
  unfold readU16
  rw [readBE_encode (u16bytes n) rest 2 rfl, beVal_u16bytes n hn]

theorem readU16_cons (v0 v1 : Nat) (rest : List Nat) :
    readU16 (v0 :: v1 :: rest) = some (256 * v0 + v1, rest) := by
  have h : readU16 ([v0, v1] ++ rest) = some (beVal [v0, v1], rest) :=
    readBE_encode [v0, v1] rest 2 rfl
  simpa [beVal, List.foldl] using h

theorem readStr_encode (l rest : List Nat) (hl : l.length < 65536) :
    readStr (u16bytes l.length ++ (l ++ rest)) = some (l, rest) := by
  unfold readStr
  rw [rbind_eq _ _ _ _ _ (readU16_encode l.length hl (l ++ rest))]
  exact readN_exact l rest

theorem decodeKey_eq_some (key : List Nat) (ver : Nat) (rest : List Nat)
    (h : readU16 key = some (ver, rest)) :
    decodeKey key = if ver = 0 ∨ ver = 1 then decodeKeyBody rest else none := by
  unfold decodeKey
  rw [h]

theorem decodeValue_eq_some (value : List Nat) (ver : Nat) (rest : List Nat)
    (h : readU16 value = some (ver, rest)) :
    decodeValue value =
      if ver = 0 ∨ ver = 1 then decodeValueBody rest else none := by
  unfold decodeValue
  rw [rbind_eq _ _ _ _ _ h]
  by_cases hc : ver = 0 ∨ ver = 1
  · rw [if_pos hc, if_pos hc]
  · rw [if_neg hc, if_neg hc]
    rfl

theorem readU64_encode (n : Nat) (hn : n < 18446744073709551616) (rest : List Nat) :
    readU64 (u64bytes n ++ rest) = some (n, rest) := by
  unfold readU64
  rw [readBE_encode (u64bytes n) rest 8 rfl, beVal_u64bytes n hn]

theorem decodeKey_encodeKey (ver : Nat) (g t : List Nat) (p : Nat)
    (hver : ver = 0 ∨ ver = 1) (hg : g.length < 65536) (ht : t.length < 65536)
    (hp : p < 4294967296) :
    decodeKey (encodeKey ver g t p) = some ((g, t, p), []) := by
  have hver16 : ver < 65536 := by rcases hver with h | h <;> omega
  unfold encodeKey
  rw [decodeKey_eq_some _ ver _ (readU16_encode ver hver16 _), if_pos hver]
  unfold decodeKeyBody
  rw [rbind_eq _ _ _ _ _ (readStr_encode g _ hg)]
  rw [rbind_eq _ _ _ _ _ (readStr_encode t _ ht)]
  have hu32 : readU32 (u32bytes p) = some (p, []) := by
    unfold readU32
    rw [readBE_all (u32bytes p) 4 rfl, beVal_u32bytes p hp]
  rw [rbind_eq _ _ _ _ _ hu32]
  rfl

theorem decodeValue_encodeValue (ver off : Nat) (meta : List Nat) (ts : Nat)
    (extra : List Nat) (hver : ver = 0 ∨ ver = 1)
    (hoff : off < 18446744073709551616) (hm : meta.length < 65536)
    (hts : ts < 18446744073709551616) :
    decodeValue (encodeValue ver off meta ts ++ extra) = some ((off, ts), extra) := by
  have hver16 : ver < 65536 := by rcases hver with h | h <;> omega
  have hassoc : encodeValue ver off meta ts ++ extra
      = u16bytes ver
          ++ (u64bytes off ++ (u16bytes meta.length ++ (meta ++ (u64bytes ts ++ extra)))) := by
    unfold encodeValue
    simp [List.append_assoc]
  rw [hassoc]
  rw [decodeValue_eq_some _ ver _ (readU16_encode ver hver16 _), if_pos hver]
  unfold decodeValueBody
  rw [rbind_eq _ _ _ _ _ (readU64_encode off hoff _)]
  rw [rbind_eq _ _ _ _ _ (readStr_encode meta _ hm)]
  rw [rbind_eq _ _ _ _ _ (readU64_encode ts hts extra)]
  rfl

/-- **C2.** Decoding a well-formed version-0 or version-1 commit key built
per the key layout recovers exactly the encoded group bytes, topic bytes
and partition; a key whose version field holds 2 or any other unsupported
value decodes to a rejection, and processing such a record performs no
upsert (the store is returned unchanged, and nothing is thrown: decoding
is total). -/
theorem key_codec_roundtrip (ver : Nat) (g t : List Nat) (p : Nat)
    (hver : ver = 0 ∨ ver = 1) (hg : g.length < 65536) (ht : t.length < 65536)
    (hp : p < 4294967296) (v0 v1 : Nat) (rest : List Nat)
    (hbad : ¬(256 * v0 + v1 = 0 ∨ 256 * v0 + v1 = 1)) :
    decodeKey (encodeKey ver g t p) = some ((g, t, p), []) ∧
    decodeKey (v0 :: v1 :: rest) = none ∧
    ∀ (s : GTPOffsetMap) (value : List Nat),
      processMessage s (v0 :: v1 :: rest) value = s := by
  refine ⟨decodeKey_encodeKey ver g t p hver hg ht hp, ?_, ?_⟩
  · rw [decodeKey_eq_some _ _ _ (readU16_cons v0 v1 rest), if_neg hbad]
  · intro s value
    unfold processMessage
    rw [decodeKey_eq_some _ _ _ (readU16_cons v0 v1 rest), if_neg hbad]

/-- Witness for C2: version 1 with group byte 103, topic byte 116,
partition 5 round-trips; a version-2 key (bytes 0,2) is rejected with no
store change. -/
theorem key_codec_roundtrip_witness :
    decodeKey (encodeKey 1 [103] [116] 5) = some (([103], [116], 5), []) ∧
    decodeKey [0, 2] = none ∧
    processMessage [("x", [])] [0, 2] [] = [("x", [])] := by
  have W := key_codec_roundtrip 1 [103] [116] 5 (Or.inr rfl) (by decide) (by decide)
    (by decide) 0 2 [] (by decide)
  exact ⟨W.1, W.2.1, W.2.2 [("x", [])] []⟩

/-- **C8.** Value decoding accepts only version 0 and version 1 (a
successful decode forces the leading version field to read 0 or 1); both
accepted versions read exactly the same field sequence (the two version
headers decode any suffix identically); and a well-formed value of either
version decodes to its (offset, commitTimestamp), leaving every trailing
byte unread — no additional version-1 field is consumed. -/
theorem value_codec_versions (b : List Nat) (v : Nat × Nat) (l : List Nat)
    (hb : decodeValue b = some (v, l)) (rest : List Nat)
    (w off : Nat) (meta : List Nat) (ts : Nat) (extra : List Nat)
    (hw : w = 0 ∨ w = 1) (hoff : off < 18446744073709551616)
    (hm : meta.length < 65536) (hts : ts < 18446744073709551616) :
    (2 ≤ b.length ∧ (beVal (b.take 2) = 0 ∨ beVal (b.take 2) = 1)) ∧
    decodeValue (0 :: 0 :: rest) = decodeValue (0 :: 1 :: rest) ∧
    decodeValue (encodeValue w off meta ts ++ extra) = some ((off, ts), extra) := by
  refine ⟨?_, ?_, decodeValue_encodeValue w off meta ts extra hw hoff hm hts⟩
  · unfold decodeValue at hb
    obtain ⟨ver, rest1, h1, h2⟩ := rbind_inv _ _ _ _ _ hb
    obtain ⟨hlen, hver, _⟩ := readBE_inv 2 b ver rest1 h1
    by_cases hc : ver = 0 ∨ ver = 1
    · exact ⟨hlen, hver ▸ hc⟩
    · rw [if_neg hc] at h2
      cases h2
  · have h00 : readU16 (0 :: 0 :: rest) = some (0, rest) := by
      simpa using readU16_cons 0 0 rest
    have h01 : readU16 (0 :: 1 :: rest) = some (1, rest) := by
      simpa using readU16_cons 0 1 rest
    rw [decodeValue_eq_some _ 0 rest h00, decodeValue_eq_some _ 1 rest h01]
    simp

/-- Witness for C8 at a concrete version-1 value buffer (offset 42,
empty metadata, timestamp 3) and a concrete version-1 encode (offset 7,
metadata byte 3, timestamp 9, one trailing byte). -/
theorem value_codec_versions_witness :
    (2 ≤ ([0, 1, 0, 0, 0, 0, 0, 0, 0, 42, 0, 0, 0, 0, 0, 0, 0, 0, 0, 3] : List Nat).length ∧
      (beVal (([0, 1, 0, 0, 0, 0, 0, 0, 0, 42, 0, 0, 0, 0, 0, 0, 0, 0, 0, 3] : List Nat).take 2) = 0 ∨
       beVal (([0, 1, 0, 0, 0, 0, 0, 0, 0, 42, 0, 0, 0, 0, 0, 0, 0, 0, 0, 3] : List Nat).take 2) = 1)) ∧
    decodeValue (0 :: 0 :: [5, 6]) = decodeValue (0 :: 1 :: [5, 6]) ∧
    decodeValue (encodeValue 1 7 [3] 9 ++ [1]) = some ((7, 9), [1]) :=
  value_codec_versions [0, 1, 0, 0, 0, 0, 0, 0, 0, 42, 0, 0, 0, 0, 0, 0, 0, 0, 0, 3]
    (42, 3) [] (by decide) [5, 6] 1 7 [3] 9 [1] (Or.inr rfl) (by decide) (by decide)
    (by decide)

/-- **C10.** A record whose key or value fails to decode leaves the
Consumer Offset Table completely unchanged: the upsert runs only after
both decodes succeed. -/
theorem failed_decode_no_upsert (s : GTPOffsetMap) (key value : List Nat)
    (h : decodeKey key = none ∨ decodeValue value = none) :
    processMessage s key value = s := by
  unfold processMessage
  rcases h with hk | hv
  · rw [hk]
  · cases hk : decodeKey key with
    | none => rfl
    | some r =>
        obtain ⟨⟨g, t, p⟩, l⟩ := r
        rw [hv]

/-- Witness for C10: a truncated key (single byte) and a version-2 key
both leave a nonempty store unchanged. -/
theorem failed_decode_no_upsert_witness :
    processMessage [("y", [("u", [(1, 4)])])] [7] [0, 0] = [("y", [("u", [(1, 4)])])] :=
  failed_decode_no_upsert [("y", [("u", [(1, 4)])])] [7] [0, 0] (Or.inl (by decide))

/-! ### Truncation safety

`ReaderOK` captures how a reader behaves on every prefix of a buffer it
accepts: truncating strictly inside the consumed region makes it fail,
truncating at or past the consumed region preserves the parsed value and
truncates only the leftover. It composes through `rbind`, giving the
truncation property of both decoders. -/

/-- Prefix behaviour of a reader that accepted `b` leaving `l` unread. -/
def ReaderOK {α : Type} (R : ByteReader α) : Prop :=
  ∀ b v l, R b = some (v, l) →
    l.length ≤ b.length ∧
    ∀ k, R (b.take k) =
      if b.length - l.length ≤ k then some (v, l.take (k - (b.length - l.length)))
      else none

theorem rpure_ok {α : Type} (a : α) : ReaderOK (rpure a) := by
  intro b v l h
  unfold rpure at h
  injection h with h1
  rw [Prod.mk.injEq] at h1
  obtain ⟨hv, hl⟩ := h1
  subst hv; subst hl
  refine ⟨le_refl _, fun k => ?_⟩
  simp [rpure]

theorem rfail_ok {α : Type} : ReaderOK (rfail : ByteReader α) := by
  intro b v l h
  cases h

theorem readN_ok (n : Nat) : ReaderOK (readN n) := by
  intro b v l h
  obtain ⟨hn, hv, hl⟩ := readN_inv n b v l h
  subst hv; subst hl
  have hd : (b.drop n).length = b.length - n := by simp
  refine ⟨by omega, fun k => ?_⟩
  have hc : b.length - (b.drop n).length = n := by omega
  rw [hc]
  unfold readN
  have hlt : (b.take k).length = min k b.length := by simp
  by_cases hk : n ≤ k
  · rw [if_pos (by omega), if_pos hk]
    rw [List.take_take, min_eq_left hk, List.drop_take]
  · rw [if_neg (by omega), if_neg hk]

theorem rbind_ok {α β : Type} {R1 : ByteReader α} {R2 : α → ByteReader β}
    (h1 : ReaderOK R1) (h2 : ∀ v, ReaderOK (R2 v)) : ReaderOK (rbind R1 R2) := by
  intro b v l h
  obtain ⟨v1, l1, hr1, hr2⟩ := rbind_inv _ _ _ _ _ h
  obtain ⟨hlen1, htake1⟩ := h1 b v1 l1 hr1
  obtain ⟨hlen2, htake2⟩ := h2 v1 l1 v l hr2
  refine ⟨by omega, fun k => ?_⟩
  by_cases hk1 : b.length - l1.length ≤ k
  · have hsome : R1 (b.take k) = some (v1, l1.take (k - (b.length - l1.length))) := by
      rw [htake1 k, if_pos hk1]
    rw [rbind_eq _ _ _ _ _ hsome]
    rw [htake2 (k - (b.length - l1.length))]
    by_cases hk2 : b.length - l.length ≤ k
    · rw [if_pos (by omega), if_pos hk2]
      have hix : k - (b.length - l1.length) - (l1.length - l.length)
          = k - (b.length - l.length) := by omega
      rw [hix]
    · rw [if_neg (by omega), if_neg hk2]
  · have hnone : R1 (b.take k) = none := by
      rw [htake1 k, if_neg hk1]
    unfold rbind
    rw [hnone, if_neg (by omega)]

theorem readBE_ok (w : Nat) : ReaderOK (readBE w) :=
  rbind_ok (readN_ok w) (fun bs => rpure_ok (beVal bs))

theorem readStr_ok : ReaderOK readStr :=
  rbind_ok (readBE_ok 2) (fun n => readN_ok n)

theorem ite_reader_ok {α : Type} (c : Prop) [Decidable c] {R1 R2 : ByteReader α}
    (h1 : ReaderOK R1) (h2 : ReaderOK R2) : ReaderOK (if c then R1 else R2) := by
  by_cases hc : c
  · rw [if_pos hc]; exact h1
  · rw [if_neg hc]; exact h2

theorem decodeKeyBody_ok : ReaderOK decodeKeyBody :=
  rbind_ok readStr_ok (fun g =>
    rbind_ok readStr_ok (fun t =>
      rbind_ok (readBE_ok 4) (fun p => rpure_ok (g, t, p))))

theorem decodeValueBody_ok : ReaderOK decodeValueBody :=
  rbind_ok (readBE_ok 8) (fun off =>
    rbind_ok readStr_ok (fun _ =>
      rbind_ok (readBE_ok 8) (fun ts => rpure_ok (off, ts))))

theorem decodeValue_ok : ReaderOK decodeValue :=
  rbind_ok (readBE_ok 2)
    (fun ver => ite_reader_ok (ver = 0 ∨ ver = 1) decodeValueBody_ok rfail_ok)

theorem decodeKeyBody_nil : decodeKeyBody [] = none := rfl

theorem decodeKey_eq_none (key : List Nat) (h : readU16 key = none) :
    decodeKey key = decodeKeyBody [] := by
  unfold decodeKey
  rw [h]

theorem readU16_len (b : List Nat) (v : Nat) (rest : List Nat)
    (h : readU16 b = some (v, rest)) : b.length = rest.length + 2 := by
  obtain ⟨h2, _, hr⟩ := readBE_inv 2 b v rest h
  subst hr
  have hd : (b.drop 2).length = b.length - 2 := by simp
  omega

theorem decodeKey_ok : ReaderOK decodeKey := by
  intro b v l h
  cases hru : readU16 b with
  | none =>
      rw [decodeKey_eq_none b hru, decodeKeyBody_nil] at h
      cases h
  | some vr =>
      obtain ⟨ver, rest⟩ := vr
      rw [decodeKey_eq_some b ver rest hru] at h
      by_cases hc : ver = 0 ∨ ver = 1
      · rw [if_pos hc] at h
        obtain ⟨hlen, htake⟩ := decodeKeyBody_ok rest v l h
        have hblen : b.length = rest.length + 2 := readU16_len b ver rest hru
        obtain ⟨_, htake16⟩ := readBE_ok 2 b ver rest hru
        have hc1 : b.length - rest.length = 2 := by omega
        refine ⟨by omega, fun k => ?_⟩
        by_cases hk : 2 ≤ k
        · have h16 : readU16 (b.take k) = some (ver, rest.take (k - 2)) := by
            unfold readU16
            rw [htake16 k, hc1, if_pos hk]
          rw [decodeKey_eq_some _ _ _ h16, if_pos hc, htake (k - 2)]
          by_cases hk2 : b.length - l.length ≤ k
          · rw [if_pos (by omega), if_pos hk2]
            have hix : k - 2 - (rest.length - l.length) = k - (b.length - l.length) := by
              omega
            rw [hix]
          · rw [if_neg (by omega), if_neg hk2]
        · have h16 : readU16 (b.take k) = none := by
            unfold readU16
            rw [htake16 k, hc1, if_neg hk]
          rw [decodeKey_eq_none _ h16, decodeKeyBody_nil, if_neg (by omega)]
      · rw [if_neg hc] at h
        cases h

/-- **C3.** Truncating a commit-key or commit-value buffer at any byte
boundary strictly inside the region its decode consumes makes the decode
return failure. The embedding of every read is bounds-checked and total,
so no input makes the decoder read outside the buffer or panic. -/
theorem truncation_safety (kb : List Nat) (kr : List Nat × List Nat × Nat)
    (kl : List Nat) (hk : decodeKey kb = some (kr, kl))
    (vb : List Nat) (vr : Nat × Nat) (vl : List Nat)
    (hv : decodeValue vb = some (vr, vl)) (j k : Nat)
    (hj : j < kb.length - kl.length) (hkk : k < vb.length - vl.length) :
    decodeKey (kb.take j) = none ∧ decodeValue (vb.take k) = none := by
  constructor
  · have ht := (decodeKey_ok kb kr kl hk).2 j
    rw [ht, if_neg (by omega)]
  · have ht := (decodeValue_ok vb vr vl hv).2 k
    rw [ht, if_neg (by omega)]

/-- Witness for C3: a valid version-0 key cut after 5 of its 10 bytes and
a valid version-0 value cut after 3 of its 20 bytes both fail to decode. -/
theorem truncation_safety_witness :
    decodeKey ((encodeKey 0 [] [] 0).take 5) = none ∧
    decodeValue ((encodeValue 0 0 [] 0).take 3) = none :=
  truncation_safety (encodeKey 0 [] [] 0) ([], [], 0) [] (by decide)
    (encodeValue 0 0 [] 0) (0, 0) [] (by decide) 5 3 (by decide) (by decide)

/-! ### Topic/partition snapshot (`getTopicsAndPartitions`, part_000 lines 183-195)

The snapshot walks group -> topic -> partition and runs
`tpMap[topic] = append(tpMap[topic], partition)` once per (group, topic,
partition) entry: one append per group holding the pair, with no
deduplication across groups. -/

/-- `tpMap[t] = append(tpMap[t], p)`: extend the entry for `t`, or create
one (the nil-slice append) when `t` is absent. -/
def tpmAppend (m : List (String × List Nat)) (t : String) (p : Nat) :
    List (String × List Nat) :=
  match m with
  | [] => [(t, [p])]
  | (u, ps) :: rest =>
      if u = t then (u, ps ++ [p]) :: rest else (u, ps) :: tpmAppend rest t p

/-- Innermost snapshot loop: `for partition := range tbody`. -/
def snapPartitions (t : String) (pm : POffsetMap)
    (acc : List (String × List Nat)) : List (String × List Nat) :=
  match pm with
  | [] => acc
  | (p, _) :: rest => snapPartitions t rest (tpmAppend acc t p)

/-- Middle snapshot loop: `for topic, tbody := range gbody`. -/
def snapTopics (tm : TPOffsetMap) (acc : List (String × List Nat)) :
    List (String × List Nat) :=
  match tm with
  | [] => acc
  | (t, pm) :: rest => snapTopics rest (snapPartitions t pm acc)

/-- Outer snapshot loop: `for _, gbody := range offsetStore`. -/
def snapGroups (cm : GTPOffsetMap) (acc : List (String × List Nat)) :
    List (String × List Nat) :=
  match cm with
  | [] => acc
  | (_, tm) :: rest => snapGroups rest (snapTopics tm acc)

/-- `getTopicsAndPartitions` (part_000 lines 183-195). -/
def getTopicsAndPartitions (cm : GTPOffsetMap) : List (String × List Nat) :=
  snapGroups cm []

/-- Multiplicity of the pair (t, p) in a topic -> partitions map. -/
def tpmCount (m : List (String × List Nat)) (t : String) (p : Nat) : Nat :=
  match m with
  | [] => 0
  | (u, ps) :: rest => (if u = t then ps.count p else 0) + tpmCount rest t p

/-- Number of (t, p) entries inside one group's topic map. -/
def tmEntryCount (tm : TPOffsetMap) (t : String) (p : Nat) : Nat :=
  match tm with
  | [] => 0
  | (u, pm) :: rest =>
      (if u = t then (pm.map Prod.fst).count p else 0) + tmEntryCount rest t p

/-- Number of groups (entry occurrences) of the consumer store holding an
entry for (t, p). -/
def groupEntryCount (cm : GTPOffsetMap) (t : String) (p : Nat) : Nat :=
  match cm with
  | [] => 0
  | (_, tm) :: rest => tmEntryCount tm t p + groupEntryCount rest t p

theorem tpmCount_tpmAppend (m : List (String × List Nat)) (t' : String) (p' : Nat)
    (t : String) (p : Nat) :
    tpmCount (tpmAppend m t' p') t p
      = tpmCount m t p + (if t' = t ∧ p' = p then 1 else 0) := by
  induction m with
  | nil =>
      by_cases h1 : t' = t <;> by_cases h2 : p' = p <;>
        simp [tpmAppend, tpmCount, h1, h2, List.count_cons]
  | cons e rest ih =>
      obtain ⟨u, ps⟩ := e
      by_cases hu : u = t'
      · subst hu
        by_cases h1 : u = t <;> by_cases h2 : p' = p <;>
          simp [tpmAppend, tpmCount, h1, h2, List.count_append, List.count_cons] <;>
          omega
      · simp only [tpmAppend, if_neg hu, tpmCount, ih]
        omega

theorem tpmCount_snapPartitions (t' : String) (pm : POffsetMap)
    (acc : List (String × List Nat)) (t : String) (p : Nat) :
    tpmCount (snapPartitions t' pm acc) t p
      = tpmCount acc t p + (if t' = t then (pm.map Prod.fst).count p else 0) := by
  induction pm generalizing acc with
  | nil => simp [snapPartitions]
  | cons e rest ih =>
      obtain ⟨q, o⟩ := e
      show tpmCount (snapPartitions t' rest (tpmAppend acc t' q)) t p = _
      rw [ih (tpmAppend acc t' q), tpmCount_tpmAppend]
      by_cases h1 : t' = t <;> by_cases h2 : q = p <;>
        simp [h1, h2, List.count_cons] <;> omega

theorem tpmCount_snapTopics (tm : TPOffsetMap)
    (acc : List (String × List Nat)) (t : String) (p : Nat) :
    tpmCount (snapTopics tm acc) t p = tpmCount acc t p + tmEntryCount tm t p := by
  induction tm generalizing acc with
  | nil => simp [snapTopics, tmEntryCount]
  | cons e rest ih =>
      obtain ⟨u, pm⟩ := e
      show tpmCount (snapTopics rest (snapPartitions u pm acc)) t p = _
      rw [ih (snapPartitions u pm acc), tpmCount_snapPartitions]
      show _ = tpmCount acc t p
        + ((if u = t then (pm.map Prod.fst).count p else 0) + tmEntryCount rest t p)
      omega

theorem tpmCount_snapGroups (cm : GTPOffsetMap)
    (acc : List (String × List Nat)) (t : String) (p : Nat) :
    tpmCount (snapGroups cm acc) t p = tpmCount acc t p + groupEntryCount cm t p := by
  induction cm generalizing acc with
  | nil => simp [snapGroups, groupEntryCount]
  | cons e rest ih =>
      obtain ⟨g, tm⟩ := e
      show tpmCount (snapGroups rest (snapTopics tm acc)) t p = _
      rw [ih (snapTopics tm acc), tpmCount_snapTopics]
      show _ = tpmCount acc t p + (tmEntryCount tm t p + groupEntryCount rest t p)
      omega

/-- **C6 counterexample.** Two groups each holding an entry for
("t", 0): the snapshot lists the pair twice, not exactly once — the
claim's "each pair appears exactly once regardless of how many groups
hold an entry for it" fails on the code. -/
theorem snapshot_not_set_counterexample :
    tpmCount (getTopicsAndPartitions
        [("g1", [("t", [(0, 5)])]), ("g2", [("t", [(0, 7)])])]) "t" 0 = 2 ∧
    ¬ tpmCount (getTopicsAndPartitions
        [("g1", [("t", [(0, 5)])]), ("g2", [("t", [(0, 7)])])]) "t" 0 = 1 := by
  decide

/-- **C6 (amended).** The snapshot contains a (topic, partition) pair
exactly as many times as there are group entries holding it: it contains
the pair iff some group currently has an entry for it, but with one
occurrence per holding group rather than exactly once. -/
theorem snapshot_multiplicity (cm : GTPOffsetMap) (t : String) (p : Nat) :
    tpmCount (getTopicsAndPartitions cm) t p = groupEntryCount cm t p := by
  unfold getTopicsAndPartitions
  rw [tpmCount_snapGroups]
  simp [tpmCount]

/-! ### Broker offset request batching (`GetBrokerOffsets`, part_000 lines 121-180)

For each (topic, partition) of the snapshot the leader is resolved (a
resolution error skips the pair); then
`if _, ok := brokerOffsetRequests[leaderBrokerID]; !ok` stores a fresh
empty request for that leader, and only the `else` branch calls
`AddBlock(topic, partition, ...)` on the existing request. -/

/-- Per-leader accumulated request blocks: leader broker id ->
list of (topic, partition) blocks of its `OffsetRequest`. -/
abbrev OffsetRequests : Type := List (Nat × List (String × Nat))

/-- `brokerOffsetRequests[lid]` presence/content lookup. -/
def reqLookup (reqs : OffsetRequests) (lid : Nat) : Option (List (String × Nat)) :=
  match reqs with
  | [] => none
  | (i, blocks) :: rest => if i = lid then some blocks else reqLookup rest lid

/-- `OffsetRequest.AddBlock(topic, partition, ...)` on leader `lid`'s
request. -/
def reqAddBlock (reqs : OffsetRequests) (lid : Nat) (t : String) (p : Nat) :
    OffsetRequests :=
  match reqs with
  | [] => []
  | (i, blocks) :: rest =>
      if i = lid then (i, blocks ++ [(t, p)]) :: rest
      else (i, blocks) :: reqAddBlock rest lid t p

/-- Loop body of part_000 lines 126-146 for one (topic, partition):
`continue` on leader-resolution error; create an empty request the first
time a leader is seen; otherwise add the block to its request. -/
def requestStep (leader : String → Nat → Option Nat) (reqs : OffsetRequests)
    (t : String) (p : Nat) : OffsetRequests :=
  match leader t p with
  | none => reqs
  | some lid =>
      match reqLookup reqs lid with
      | none => reqs ++ [(lid, [])]
      | some _ => reqAddBlock reqs lid t p

/-- Inner loop: `for _, partition := range partitions`. -/
def requestsOfPartitions (leader : String → Nat → Option Nat) (t : String)
    (ps : List Nat) (reqs : OffsetRequests) : OffsetRequests :=
  match ps with
  | [] => reqs
  | p :: rest => requestsOfPartitions leader t rest (requestStep leader reqs t p)

/-- Outer loop: `for topic, partitions := range tpMap`. -/
def requestsOfTopics (leader : String → Nat → Option Nat)
    (tpMap : List (String × List Nat)) (reqs : OffsetRequests) : OffsetRequests :=
  match tpMap with
  | [] => reqs
  | (t, ps) :: rest => requestsOfTopics leader rest (requestsOfPartitions leader t ps reqs)

/-- The request batch one `GetBrokerOffsets` tick builds from the
consumer store, given the client's leader resolution. -/
def getBrokerOffsetRequests (leader : String → Nat → Option Nat)
    (cm : GTPOffsetMap) : OffsetRequests :=
  requestsOfTopics leader (getTopicsAndPartitions cm) []

/-- **C1 (code defect).** On the spec's own example
{(t1,0) -> leader 1, (t1,1) -> leader 2, (t2,0) -> leader 1} the code
builds one request per leader but leader 1's request contains only
(t2,0) — the first pair (t1,0) seen for leader 1 only created the empty
request, its `AddBlock` sits in the unreached `else` — and leader 2's
request is empty instead of containing (t1,1). -/
theorem getBrokerOffsets_drops_first_pair :
    getBrokerOffsetRequests
        (fun t p => if t = "t1" ∧ p = 1 then some 2 else some 1)
        [("g", [("t1", [(0, 0), (1, 0)]), ("t2", [(0, 0)])])]
      = [(1, [("t2", 0)]), (2, [])] ∧
    ¬ ("t1", 0) ∈ [("t2", (0 : Nat))] ∧
    reqLookup [(1, [("t2", 0)]), (2, [])] 2 = some [] := by
  decide

end KQSM
